import Mathlib

/-!
Shallow embedding of the AI DJ mixing engine and the adaptive lo-fi effects
processor of the LO-Fi-spotify repository, together with proofs of the
spec claims about them.

Sources embedded:
  * the AI DJ engine (TrackAnalysis, mood scoring, playlist curation,
    transition planning, track ordering);
  * the real-time effects part of LoFiProcessor in
    frontend/src/lofi-processor.ts.

JavaScript numbers are modelled as rationals (ℚ); every decimal literal in
the source is an exactly representable rational here, and every comparison
performed by the source on reachable values has the same outcome over ℚ.
Calls to the random number generator are modelled as explicit parameters
(an ℕ-indexed stream for loops drawing repeatedly); the quantities the
source derives from Math.random (energy-flow targets, weighted draws) are
universally quantified in the theorems, which therefore hold for every
possible draw.
-/

/-- The four lo-fi moods. -/
inductive Mood where
  | chill
  | cafe
  | study
  | party
deriving DecidableEq, Repr

/-- AudioFeatures record (Spotify audio features), all numeric fields. -/
structure AudioFeatures where
  danceability : ℚ
  energy : ℚ
  key : ℚ
  loudness : ℚ
  mode : ℚ
  speechiness : ℚ
  acousticness : ℚ
  instrumentalness : ℚ
  liveness : ℚ
  valence : ℚ
  tempo : ℚ
  time_signature : ℚ
deriving DecidableEq, Repr

/-- The per-mood score map of a TrackAnalysis. -/
structure MoodScore where
  chill : ℚ
  cafe : ℚ
  study : ℚ
  party : ℚ
deriving DecidableEq, Repr

/-- Lookup, modelling the dynamic access moodScore[mood]. -/
def MoodScore.get (s : MoodScore) : Mood → ℚ
  | Mood.chill => s.chill
  | Mood.cafe => s.cafe
  | Mood.study => s.study
  | Mood.party => s.party

/-- TrackAnalysis record produced by the analyzer. -/
structure TrackAnalysis where
  id : String
  uri : String
  name : String
  artist : String
  audioFeatures : AudioFeatures
  moodScore : MoodScore
  mixingCompatibility : ℚ
deriving DecidableEq, Repr

/-- The five transition types of DJTransition. -/
inductive TransitionType where
  | crossfade
  | beatmatch
  | harmonic
  | energy_build
  | energy_drop
deriving DecidableEq, Repr

/-- DJTransition record returned by calculateTransition. -/
structure DJTransition where
  fromTrack : TrackAnalysis
  toTrack : TrackAnalysis
  transitionType : TransitionType
  duration : ℚ
  fadeOutStart : ℚ
  fadeInStart : ℚ
  tempoAdjustment : ℚ
  keyCompatibility : ℚ
deriving DecidableEq, Repr

/-- calculateMoodScores: the four weighted mood formulas, operand order as
in the source. -/
def calculateMoodScores (features : AudioFeatures) : MoodScore :=
  { chill :=
      (1 - features.energy) * 0.4 +
      features.acousticness * 0.3 +
      (features.valence * 0.7) * 0.2 +
      (1 - features.danceability) * 0.1
    cafe :=
      (features.energy * 0.6) * 0.3 +
      features.acousticness * 0.25 +
      features.valence * 0.3 +
      (features.danceability * 0.7) * 0.15
    study :=
      (1 - features.energy) * 0.35 +
      features.instrumentalness * 0.4 +
      (1 - features.speechiness) * 0.15 +
      (features.valence * 0.5) * 0.1
    party :=
      features.energy * 0.4 +
      features.danceability * 0.35 +
      features.valence * 0.2 +
      (features.tempo / 200) * 0.05 }

/-- calculateMixingCompatibility: weighted composite with a tempo-window
bonus. -/
def calculateMixingCompatibility (features : AudioFeatures) : ℚ :=
  (features.danceability * 0.3) +
  (if features.tempo > 80 ∧ features.tempo < 140 then 0.3 else 0.1) +
  (features.energy * 0.2) +
  ((1 - features.speechiness) * 0.2)

/-- The circle-of-fifths ordering used by calculateKeyDistance. -/
def circleOfFifths : List ℚ := [0, 7, 2, 9, 4, 11, 6, 1, 8, 3, 10, 5]

/-- Array.prototype.indexOf on a list of rationals: index of the first
equal element; the -1 of JavaScript is rendered as none. -/
def indexOf? : List ℚ → ℚ → Option ℕ
  | [], _ => none
  | x :: xs, k => if x = k then some 0 else (indexOf? xs k).map (· + 1)

/-- calculateKeyDistance: wrapped index distance on the circle of fifths,
6 when either key is not on the circle. -/
def calculateKeyDistance (key1 key2 : ℚ) : ℤ :=
  match indexOf? circleOfFifths key1, indexOf? circleOfFifths key2 with
  | some pos1, some pos2 =>
      let distance : ℤ := |(pos1 : ℤ) - (pos2 : ℤ)|
      min distance (12 - distance)
  | _, _ => 6

/-- calculateTransition: classifies the transition between two analyzed
tracks and fills in the DJTransition record. The mutable
transitionType/duration variables of the source become the result of the
same if chain. -/
def calculateTransition (fromTrack toTrack : TrackAnalysis) : DJTransition :=
  let tempoRatio := toTrack.audioFeatures.tempo / fromTrack.audioFeatures.tempo
  let keyDistance := calculateKeyDistance fromTrack.audioFeatures.key toTrack.audioFeatures.key
  let energyDiff := |toTrack.audioFeatures.energy - fromTrack.audioFeatures.energy|
  let typeDur : TransitionType × ℚ :=
    if |tempoRatio - 1| < 0.1 ∧ keyDistance ≤ 2 then
      (TransitionType.beatmatch, 16000)
    else if keyDistance ≤ 1 then
      (TransitionType.harmonic, 12000)
    else if energyDiff > 0.3 then
      (if energyDiff > 0 then TransitionType.energy_build else TransitionType.energy_drop, 10000)
    else
      (TransitionType.crossfade, 8000)
  { fromTrack := fromTrack
    toTrack := toTrack
    transitionType := typeDur.1
    duration := typeDur.2
    fadeOutStart := 30000 - typeDur.2
    fadeInStart := 0
    tempoAdjustment := max 0.8 (min 1.2 tempoRatio)
    keyCompatibility := 1 - (calculateKeyDistance fromTrack.audioFeatures.key toTrack.audioFeatures.key : ℚ) / 6 }

/-- calculateTransitionScore: compatibility score used by getNextTrack.
The mood argument models the currentMood field of the engine. -/
def calculateTransitionScore (mood : Mood) (fromT toT : TrackAnalysis) : ℚ :=
  let tempoCompatibility := 1 - |fromT.audioFeatures.tempo - toT.audioFeatures.tempo| / 100
  let keyCompatibility := 1 - (calculateKeyDistance fromT.audioFeatures.key toT.audioFeatures.key : ℚ) / 6
  let energyCompatibility := 1 - |fromT.audioFeatures.energy - toT.audioFeatures.energy|
  let moodCompatibility := toT.moodScore.get mood
  tempoCompatibility * 0.3 +
  keyCompatibility * 0.25 +
  energyCompatibility * 0.25 +
  moodCompatibility * 0.2

/-- The weights array of getNextTrack. -/
def transitionWeights : List ℚ := [0.5, 0.3, 0.2]

/-- The descending-score comparator passed to sort in getNextTrack. -/
def scoreOrder (a b : TrackAnalysis × ℚ) : Prop := b.2 ≤ a.2

instance : DecidableRel scoreOrder :=
  fun a b => inferInstanceAs (Decidable (b.2 ≤ a.2))

/-- The cumulative-weight loop of getNextTrack: i is the candidate index,
r the value drawn from the random source. The getD default models the
JavaScript weights[i] || 0.1 (the stored weights are nonzero, so
truthiness coincides with presence). -/
def pickWeighted : List (TrackAnalysis × ℚ) → ℕ → ℚ → ℚ → Option TrackAnalysis
  | [], _, _, _ => none
  | c :: cs, i, cumulative, r =>
    let cumulative := cumulative + transitionWeights.getD i 0.1
    if r < cumulative then some c.1 else pickWeighted cs (i + 1) cumulative r

/-- getNextTrack: scores the remaining tracks against the current one,
sorts descending (a stable sort, like the runtime sort), keeps the top
three and draws among them; the final
topCandidates[0]?.track || null of the source is the fallback on head?
(a track object is never falsy). -/
def getNextTrack (mood : Mood) (currentTrack : TrackAnalysis)
    (remainingTracks : List TrackAnalysis) (r : ℚ) : Option TrackAnalysis :=
  if remainingTracks.length = 0 then none
  else
    let scored := remainingTracks.map (fun track =>
      (track, calculateTransitionScore mood currentTrack track))
    let sorted := List.insertionSort scoreOrder scored
    let topCandidates := sorted.take (min 3 sorted.length)
    match pickWeighted topCandidates 0 0 r with
    | some t => some t
    | none => topCandidates.head?.map Prod.fst

/-- The while loop of optimizeTrackOrder. fuel bounds the number of
iterations: callers pass the length of the initial list, which the loop
never exhausts because every successful getNextTrack call removes the
returned element, so the fuel-zero branch is unreachable from
optimizeTrackOrder. rand supplies the value drawn by getNextTrack at
each iteration. -/
def optimizeLoop (mood : Mood) (rand : ℕ → ℚ) :
    ℕ → ℕ → TrackAnalysis → List TrackAnalysis → List TrackAnalysis
  | 0, _, _, remaining => remaining
  | Nat.succ fuel, k, current, remaining =>
    if remaining.length = 0 then []
    else
      match getNextTrack mood current remaining (rand k) with
      | some next => next :: optimizeLoop mood rand fuel (k + 1) next (remaining.erase next)
      | none => remaining

/-- optimizeTrackOrder: greedy path construction starting from the track
of maximal mixingCompatibility (the reduce of the source, keeping the
earlier track on ties). splice(indexOf(x), 1) becomes erase: all array
entries are distinct object references created by analyzeTracks, and
value-equal entries are indistinguishable to every computation here, so
erasing the first equal value is faithful. -/
def optimizeTrackOrder (mood : Mood) (rand : ℕ → ℚ) (tracks : List TrackAnalysis) :
    List TrackAnalysis :=
  if tracks.length ≤ 1 then tracks
  else
    match tracks with
    | [] => []
    | t :: ts =>
      let startTrack := ts.foldl
        (fun best track =>
          if track.mixingCompatibility > best.mixingCompatibility then track else best) t
      startTrack :: optimizeLoop mood rand (t :: ts).length 0 startTrack ((t :: ts).erase startTrack)

/-- The descending mood-score comparator passed to sort in
createMoodPlaylist. -/
def moodGE (mood : Mood) (a b : TrackAnalysis) : Prop :=
  b.moodScore.get mood ≤ a.moodScore.get mood

instance (mood : Mood) : DecidableRel (moodGE mood) :=
  fun a b => inferInstanceAs (Decidable (b.moodScore.get mood ≤ a.moodScore.get mood))

/-- The candidate expression of createMoodPlaylist for one slot:
find on the energy/mood constraints, with || falling back to the first
not-yet-selected track. The still-unselected entries are carried as
avail, in sorted order, so the fallback find is head? of avail. -/
def selectCandidate (mood : Mood) (targetEnergy : ℚ) (avail : List TrackAnalysis) :
    Option TrackAnalysis :=
  match avail.find? (fun track =>
      decide (|track.audioFeatures.energy - targetEnergy| < 0.3) &&
      decide (track.moodScore.get mood > 0.4)) with
  | some c => some c
  | none => avail.head?

/-- The selection loop of createMoodPlaylist. Instead of the visited set
(selected plus includes on object references), the still-unselected
entries are carried as avail: all array entries are distinct object
references, and value-equal entries are indistinguishable to the
selection, so removing the first equal value is faithful. n counts the
remaining slots, i the slot index used to read the energy target. The
usedKeys set of the source is write-only and is omitted. -/
def createLoop (mood : Mood) (energyTargets : ℕ → ℚ) :
    ℕ → ℕ → List TrackAnalysis → List TrackAnalysis
  | 0, _, _ => []
  | Nat.succ n, i, avail =>
    match selectCandidate mood (energyTargets i) avail with
    | some c => c :: createLoop mood energyTargets n (i + 1) (avail.erase c)
    | none => createLoop mood energyTargets n (i + 1) avail

/-- createMoodPlaylist: sort by descending mood score, then fill
min maxTracks length slots. energyTargets stands for the output of
generateEnergyFlow, which is built from Math.random and Math.sin; the
theorems quantify over it, so they hold for every generated flow. -/
def createMoodPlaylist (tracks : List TrackAnalysis) (mood : Mood) (maxTracks : ℕ)
    (energyTargets : ℕ → ℚ) : List TrackAnalysis :=
  let sortedTracks := List.insertionSort (moodGE mood) tracks
  createLoop mood energyTargets (min maxTracks sortedTracks.length) 0 sortedTracks

/-- The baseMoodSettings record of LoFiProcessor. -/
structure LoFiSettings where
  filterFrequency : ℚ
  gain : ℚ
  compression : ℚ
deriving DecidableEq, Repr

/-- The per-mood base settings assigned by applyLoFiPreset; the initial
field value of the class equals the chill preset. -/
def moodBaseSettings : Mood → LoFiSettings
  | Mood.chill => { filterFrequency := 2500, gain := 0.7, compression := 8 }
  | Mood.cafe => { filterFrequency := 3500, gain := 0.8, compression := 6 }
  | Mood.study => { filterFrequency := 2000, gain := 0.6, compression := 12 }
  | Mood.party => { filterFrequency := 4000, gain := 0.9, compression := 4 }

/-- Result record of calculateDynamicAdjustments. -/
structure DynamicAdjustments where
  filterAdjust : ℚ
  gainAdjust : ℚ
  compressionAdjust : ℚ
deriving DecidableEq, Repr

/-- calculateDynamicAdjustments: the three accumulator variables of the
source; the treble branch both lowers compression and further lowers the
filter adjustment. -/
def calculateDynamicAdjustments (bass mid treble : ℚ) : DynamicAdjustments :=
  let filterAdjust : ℚ := if bass > 180 then -300 else if bass < 80 then 200 else 0
  let gainAdjust : ℚ := if mid > 160 then 0.05 else if mid < 80 then -0.05 else 0
  let compressionAdjust : ℚ := if treble > 180 then -2 else 0
  let filterAdjust :=
    if treble > 180 then filterAdjust - 150
    else if treble < 60 then filterAdjust + 100
    else filterAdjust
  { filterAdjust := filterAdjust, gainAdjust := gainAdjust, compressionAdjust := compressionAdjust }

/-- Math.max lo (Math.min hi x), the clamping pattern of
applyDynamicAdjustments. -/
def clamp (lo hi x : ℚ) : ℚ := max lo (min hi x)

/-- applyDynamicAdjustments: clamped target values handed to
setTargetAtTime (the smoothing itself is time behaviour, out of the
embedding; the values scheduled are these). -/
def applyDynamicAdjustments (base : LoFiSettings) (adjustments : DynamicAdjustments) :
    LoFiSettings :=
  { filterFrequency := clamp 1000 8000 (base.filterFrequency + adjustments.filterAdjust)
    gain := clamp 0.3 1.0 (base.gain + adjustments.gainAdjust)
    compression := clamp 2 20 (base.compression + adjustments.compressionAdjust) }

/-- getFrequencyRange: average of the byte bins in [startIndex, endIndex)
that exist, divided by the full index count and normalized by 255. -/
def getFrequencyRange (frequencyData : List ℕ) (startIndex endIndex : ℕ) : ℚ :=
  let count : ℚ := (endIndex : ℚ) - (startIndex : ℚ)
  let sum : ℚ := (((frequencyData.take endIndex).drop startIndex).map (fun b : ℕ => (b : ℚ))).sum
  sum / count / 255

/-- applyDynamicEffects: the second, analysis-loop adjustment path. The
filter target is not clamped by the source; the gain target is capped
above by 1.0 only. Returns (filter target, gain target). -/
def applyDynamicEffects (base : LoFiSettings) (bass mid treble : ℚ) : ℚ × ℚ :=
  let targetFreq := base.filterFrequency + treble * 1000
  let targetGain := base.gain + (bass + mid) * 0.1
  (targetFreq, min 1.0 targetGain)

/-- updateRealtimeEffects: band splitting over the byte frequency data
followed by applyDynamicEffects. -/
def updateRealtimeEffects (base : LoFiSettings) (frequencyData : List ℕ) : ℚ × ℚ :=
  applyDynamicEffects base
    (getFrequencyRange frequencyData 0 85)
    (getFrequencyRange frequencyData 85 170)
    (getFrequencyRange frequencyData 170 255)

/-- Concrete AudioFeatures fixture for witnesses and counterexamples. -/
def tFeat (tempo key energy : ℚ) : AudioFeatures :=
  { danceability := 0.5, energy := energy, key := key, loudness := -10, mode := 1,
    speechiness := 0.05, acousticness := 0.5, instrumentalness := 0.5, liveness := 0.1,
    valence := 0.5, tempo := tempo, time_signature := 4 }

/-- Concrete TrackAnalysis fixture for witnesses and counterexamples. -/
def mkTrack (i : String) (tempo key energy : ℚ) : TrackAnalysis :=
  { id := i, uri := i, name := i, artist := i, audioFeatures := tFeat tempo key energy,
    moodScore := { chill := 0.5, cafe := 0.5, study := 0.5, party := 0.5 },
    mixingCompatibility := 0.5 }

/-- Descriptor with every documented [0,1] field in range and a large
(undocumented) BPM value. -/
def c9Desc : AudioFeatures :=
  { danceability := 1, energy := 1, key := 0, loudness := -10, mode := 1,
    speechiness := 0, acousticness := 0, instrumentalness := 0, liveness := 0,
    valence := 1, tempo := 1000, time_signature := 4 }

/-! ## Helper lemmas -/

theorem indexOf?_isSome_of_mem {l : List ℚ} {k : ℚ} (h : k ∈ l) :
    (indexOf? l k).isSome := by
  induction l with
  | nil => cases h
  | cons x xs ih =>
    by_cases hx : x = k
    · simp [indexOf?, hx]
    · have hk : k ∈ xs := by
        rcases List.mem_cons.mp h with h1 | h1
        · exact absurd h1.symm hx
        · exact h1
      rcases ho : indexOf? xs k with _ | p
      · rw [ho] at ih; exact absurd (ih hk) (by simp)
      · simp [indexOf?, hx, ho]

theorem indexOf?_eq_none_of_not_mem {l : List ℚ} {k : ℚ} (h : k ∉ l) :
    indexOf? l k = none := by
  induction l with
  | nil => rfl
  | cons x xs ih =>
    have hx : ¬x = k := fun he => h (he ▸ List.mem_cons_self x xs)
    have hxs : k ∉ xs := fun hk => h (List.mem_cons_of_mem x hk)
    simp [indexOf?, hx, ih hxs]

/-! ## Claim theorems -/

/-- C4: the analyzer scores equal the spec formulas exactly: the four
mood score formulas of the table and the mixing compatibility composite
with its tempo-window bonus. -/
theorem C4_analyzer_formulas (f : AudioFeatures) :
    (calculateMoodScores f).chill =
      0.4 * (1 - f.energy) + 0.3 * f.acousticness + 0.2 * (0.7 * f.valence) +
        0.1 * (1 - f.danceability) ∧
    (calculateMoodScores f).cafe =
      0.3 * (0.6 * f.energy) + 0.25 * f.acousticness + 0.3 * f.valence +
        0.15 * (0.7 * f.danceability) ∧
    (calculateMoodScores f).study =
      0.35 * (1 - f.energy) + 0.4 * f.instrumentalness + 0.15 * (1 - f.speechiness) +
        0.1 * (0.5 * f.valence) ∧
    (calculateMoodScores f).party =
      0.4 * f.energy + 0.35 * f.danceability + 0.2 * f.valence + 0.05 * (f.tempo / 200) ∧
    calculateMixingCompatibility f =
      0.3 * f.danceability + (if 80 < f.tempo ∧ f.tempo < 140 then 0.3 else 0.1) +
        0.2 * f.energy + 0.2 * (1 - f.speechiness) := by
  refine ⟨?_, ?_, ?_, ?_, ?_⟩
  · simp only [calculateMoodScores]; ring
  · simp only [calculateMoodScores]; ring
  · simp only [calculateMoodScores]; ring
  · simp only [calculateMoodScores]; ring
  · simp only [calculateMixingCompatibility]
    split_ifs with h
    · ring
    · ring

/-- C6 counterexample: the claim states keyDistance(a,a) = 0 for every
key, but a key off the circle-of-fifths list (Spotify emits -1 for
tracks with no detected key) is mapped to the maximum distance 6 even
against itself. -/
theorem C6_counterexample : calculateKeyDistance (-1) (-1) ≠ 0 := by decide

/-- C6 amended: keyDistance is symmetric and never exceeds 6 for all
keys; keyDistance(a,a) = 0 holds for every key on the circle-of-fifths
list, while a key off the list has self-distance 6. -/
theorem C6_keyDistance_amended (a b : ℚ) :
    calculateKeyDistance a b = calculateKeyDistance b a ∧
    (a ∈ circleOfFifths → calculateKeyDistance a a = 0) ∧
    (a ∉ circleOfFifths → calculateKeyDistance a a = 6) ∧
    calculateKeyDistance a b ≤ 6 := by
  refine ⟨?_, ?_, ?_, ?_⟩
  · rcases h1 : indexOf? circleOfFifths a with _ | p1 <;>
      rcases h2 : indexOf? circleOfFifths b with _ | p2 <;>
      simp [calculateKeyDistance, h1, h2]
    rw [abs_sub_comm]
  · intro h
    have hs := indexOf?_isSome_of_mem h
    rcases h1 : indexOf? circleOfFifths a with _ | p
    · rw [h1] at hs; exact absurd hs (by simp)
    · simp [calculateKeyDistance, h1]
  · intro h
    simp [calculateKeyDistance, indexOf?_eq_none_of_not_mem h]
  · rcases h1 : indexOf? circleOfFifths a with _ | p1 <;>
      rcases h2 : indexOf? circleOfFifths b with _ | p2 <;>
      simp [calculateKeyDistance, h1, h2]
    rcases le_total (|(p1 : ℤ) - (p2 : ℤ)|) 6 with h | h
    · exact Or.inl h
    · exact Or.inr (by linarith)

/-- C6 witness: the amended statement applied at keys 0, 7 (on the
circle) and -1 (off the circle). -/
theorem C6_keyDistance_amended_witness :
    calculateKeyDistance 0 7 = calculateKeyDistance 7 0 ∧
    ((0 : ℚ) ∈ circleOfFifths ∧ calculateKeyDistance 0 0 = 0) ∧
    ((-1 : ℚ) ∉ circleOfFifths ∧ calculateKeyDistance (-1) (-1) = 6) ∧
    calculateKeyDistance 0 7 ≤ 6 :=
  ⟨(C6_keyDistance_amended 0 7).1,
   ⟨by decide, (C6_keyDistance_amended 0 0).2.1 (by decide)⟩,
   ⟨by decide, (C6_keyDistance_amended (-1) (-1)).2.2.1 (by decide)⟩,
   (C6_keyDistance_amended 0 7).2.2.2⟩

/-- C8 counterexample: on a fromTrack with tempo 120 and key 0 and a
toTrack with tempo 121 and key 7, calculateTransition does not return a
harmonic transition of 12000 ms: the beatmatch branch fires first, since
|121/120 - 1| < 0.1 and the key distance 1 is at most 2. -/
theorem C8_counterexample :
    ¬((calculateTransition (mkTrack "a" 120 0 0.5) (mkTrack "b" 121 7 0.5)).transitionType =
        TransitionType.harmonic ∧
      (calculateTransition (mkTrack "a" 120 0 0.5) (mkTrack "b" 121 7 0.5)).duration = 12000) := by
  norm_num [calculateTransition, calculateKeyDistance, indexOf?, circleOfFifths, mkTrack,
    tFeat, abs_of_pos, abs_of_nonneg, abs_of_neg]

/-- C8 amended: for every pair of tracks with tempo 120 and key 0 going
to tempo 121 and key 7, the transition is beatmatch with duration
16000 ms (the first branch wins over harmonic). -/
theorem C8_beatmatch_amended (fromT toT : TrackAnalysis)
    (hft : fromT.audioFeatures.tempo = 120) (hfk : fromT.audioFeatures.key = 0)
    (htt : toT.audioFeatures.tempo = 121) (htk : toT.audioFeatures.key = 7) :
    (calculateTransition fromT toT).transitionType = TransitionType.beatmatch ∧
      (calculateTransition fromT toT).duration = 16000 := by
  norm_num [calculateTransition, calculateKeyDistance, indexOf?, circleOfFifths,
    hft, hfk, htt, htk, abs_of_pos, abs_of_nonneg, abs_of_neg]

/-- C8 witness: the amended statement at concrete tracks. -/
theorem C8_beatmatch_amended_witness :
    (mkTrack "a" 120 0 0.5).audioFeatures.tempo = 120 ∧
    (mkTrack "a" 120 0 0.5).audioFeatures.key = 0 ∧
    (mkTrack "b" 121 7 0.5).audioFeatures.tempo = 121 ∧
    (mkTrack "b" 121 7 0.5).audioFeatures.key = 7 ∧
    ((calculateTransition (mkTrack "a" 120 0 0.5) (mkTrack "b" 121 7 0.5)).transitionType =
        TransitionType.beatmatch ∧
      (calculateTransition (mkTrack "a" 120 0 0.5) (mkTrack "b" 121 7 0.5)).duration = 16000) :=
  ⟨rfl, rfl, rfl, rfl, C8_beatmatch_amended _ _ rfl rfl rfl rfl⟩

/-- C9 counterexample: the mood score formulas are not bounded by 1.1
over all documented AudioDescriptors, because tempo has no documented
upper bound: a descriptor with the [0,1] fields in range and tempo 1000
gives a party score of 1.2. -/
theorem C9_counterexample :
    (calculateMoodScores c9Desc).party = 1.2 ∧
      ¬((calculateMoodScores c9Desc).party ≤ 1.1) := by
  norm_num [calculateMoodScores, c9Desc]

/-- C9 amended: with the documented [0,1] fields in range, the chill,
cafe and study scores always lie in [0, 1.1]; the party score lies in
[0, 1.1] provided additionally 0 ≤ tempo ≤ 600 (the party formula grows
linearly in tempo and crosses 1.1 exactly beyond 600 BPM). -/
theorem C9_mood_bounds_amended (f : AudioFeatures)
    (he0 : 0 ≤ f.energy) (he1 : f.energy ≤ 1)
    (hv0 : 0 ≤ f.valence) (hv1 : f.valence ≤ 1)
    (hd0 : 0 ≤ f.danceability) (hd1 : f.danceability ≤ 1)
    (ha0 : 0 ≤ f.acousticness) (ha1 : f.acousticness ≤ 1)
    (hi0 : 0 ≤ f.instrumentalness) (hi1 : f.instrumentalness ≤ 1)
    (hs0 : 0 ≤ f.speechiness) (hs1 : f.speechiness ≤ 1) :
    (0 ≤ (calculateMoodScores f).chill ∧ (calculateMoodScores f).chill ≤ 1.1) ∧
    (0 ≤ (calculateMoodScores f).cafe ∧ (calculateMoodScores f).cafe ≤ 1.1) ∧
    (0 ≤ (calculateMoodScores f).study ∧ (calculateMoodScores f).study ≤ 1.1) ∧
    (0 ≤ f.tempo → f.tempo ≤ 600 →
      0 ≤ (calculateMoodScores f).party ∧ (calculateMoodScores f).party ≤ 1.1) := by
  simp only [calculateMoodScores]
  refine ⟨⟨?_, ?_⟩, ⟨?_, ?_⟩, ⟨?_, ?_⟩, fun ht0 ht1 => ⟨?_, ?_⟩⟩ <;> nlinarith

/-- C9 witness: the amended bounds at a concrete in-range descriptor
with tempo 120. -/
theorem C9_mood_bounds_amended_witness :
    (0 ≤ (calculateMoodScores (tFeat 120 0 0.5)).chill ∧
      (calculateMoodScores (tFeat 120 0 0.5)).chill ≤ 1.1) ∧
    (0 ≤ (calculateMoodScores (tFeat 120 0 0.5)).cafe ∧
      (calculateMoodScores (tFeat 120 0 0.5)).cafe ≤ 1.1) ∧
    (0 ≤ (calculateMoodScores (tFeat 120 0 0.5)).study ∧
      (calculateMoodScores (tFeat 120 0 0.5)).study ≤ 1.1) ∧
    (0 ≤ (calculateMoodScores (tFeat 120 0 0.5)).party ∧
      (calculateMoodScores (tFeat 120 0 0.5)).party ≤ 1.1) := by
  have h := C9_mood_bounds_amended (tFeat 120 0 0.5)
    (by norm_num [tFeat]) (by norm_num [tFeat]) (by norm_num [tFeat]) (by norm_num [tFeat])
    (by norm_num [tFeat]) (by norm_num [tFeat]) (by norm_num [tFeat]) (by norm_num [tFeat])
    (by norm_num [tFeat]) (by norm_num [tFeat]) (by norm_num [tFeat]) (by norm_num [tFeat])
  exact ⟨h.1, h.2.1, h.2.2.1, h.2.2.2 (by norm_num [tFeat]) (by norm_num [tFeat])⟩

/-- C1: calculateTransition classifies first-match-wins: tempo ratio
within 0.1 of 1 and key distance at most 2 gives beatmatch (16000 ms);
otherwise key distance at most 1 gives harmonic (12000 ms); otherwise an
energy difference above 0.3 gives energy_build or energy_drop
(10000 ms); otherwise crossfade (8000 ms). -/
theorem C1_transition_classification (fromT toT : TrackAnalysis) :
    ((|toT.audioFeatures.tempo / fromT.audioFeatures.tempo - 1| < 0.1 ∧
        calculateKeyDistance fromT.audioFeatures.key toT.audioFeatures.key ≤ 2) →
      (calculateTransition fromT toT).transitionType = TransitionType.beatmatch ∧
        (calculateTransition fromT toT).duration = 16000) ∧
    (¬(|toT.audioFeatures.tempo / fromT.audioFeatures.tempo - 1| < 0.1 ∧
        calculateKeyDistance fromT.audioFeatures.key toT.audioFeatures.key ≤ 2) →
      calculateKeyDistance fromT.audioFeatures.key toT.audioFeatures.key ≤ 1 →
      (calculateTransition fromT toT).transitionType = TransitionType.harmonic ∧
        (calculateTransition fromT toT).duration = 12000) ∧
    (¬(|toT.audioFeatures.tempo / fromT.audioFeatures.tempo - 1| < 0.1 ∧
        calculateKeyDistance fromT.audioFeatures.key toT.audioFeatures.key ≤ 2) →
      ¬calculateKeyDistance fromT.audioFeatures.key toT.audioFeatures.key ≤ 1 →
      |toT.audioFeatures.energy - fromT.audioFeatures.energy| > 0.3 →
      ((calculateTransition fromT toT).transitionType = TransitionType.energy_build ∨
          (calculateTransition fromT toT).transitionType = TransitionType.energy_drop) ∧
        (calculateTransition fromT toT).duration = 10000) ∧
    (¬(|toT.audioFeatures.tempo / fromT.audioFeatures.tempo - 1| < 0.1 ∧
        calculateKeyDistance fromT.audioFeatures.key toT.audioFeatures.key ≤ 2) →
      ¬calculateKeyDistance fromT.audioFeatures.key toT.audioFeatures.key ≤ 1 →
      ¬|toT.audioFeatures.energy - fromT.audioFeatures.energy| > 0.3 →
      (calculateTransition fromT toT).transitionType = TransitionType.crossfade ∧
        (calculateTransition fromT toT).duration = 8000) := by
  simp only [calculateTransition]
  split_ifs with h1 h2 h3 h4 <;> simp_all

/-- C1 witness: the beatmatch branch at concrete tracks with tempos 120
and 121 and keys 0 and 7. -/
theorem C1_transition_classification_witness :
    (|(mkTrack "b" 121 7 0.5).audioFeatures.tempo /
          (mkTrack "a" 120 0 0.5).audioFeatures.tempo - 1| < 0.1 ∧
      calculateKeyDistance (mkTrack "a" 120 0 0.5).audioFeatures.key
          (mkTrack "b" 121 7 0.5).audioFeatures.key ≤ 2) ∧
    ((calculateTransition (mkTrack "a" 120 0 0.5) (mkTrack "b" 121 7 0.5)).transitionType =
        TransitionType.beatmatch ∧
      (calculateTransition (mkTrack "a" 120 0 0.5) (mkTrack "b" 121 7 0.5)).duration = 16000) := by
  have hc : |(mkTrack "b" 121 7 0.5).audioFeatures.tempo /
          (mkTrack "a" 120 0 0.5).audioFeatures.tempo - 1| < 0.1 ∧
      calculateKeyDistance (mkTrack "a" 120 0 0.5).audioFeatures.key
          (mkTrack "b" 121 7 0.5).audioFeatures.key ≤ 2 := by
    constructor
    · norm_num [mkTrack, tFeat, abs_of_pos, abs_of_nonneg, abs_of_neg]
    · norm_num [mkTrack, tFeat, calculateKeyDistance, indexOf?, circleOfFifths]
  exact ⟨hc, (C1_transition_classification (mkTrack "a" 120 0 0.5) (mkTrack "b" 121 7 0.5)).1 hc⟩

/-- C7: in the energy branch the source compares the absolute energy
difference to zero, so the transition type is energy_build even when the
incoming energy is lower; energy_drop is unreachable for every input.
The concrete evaluation exhibits a falling-energy pair (0.9 to 0.1,
tempos and keys far apart) classified as energy_build. -/
theorem C7_energy_direction_eval :
    ((calculateTransition (mkTrack "a" 120 0 0.9) (mkTrack "b" 150 6 0.1)).transitionType =
        TransitionType.energy_build ∧
      (mkTrack "b" 150 6 0.1).audioFeatures.energy <
        (mkTrack "a" 120 0 0.9).audioFeatures.energy) ∧
    ∀ fromT toT : TrackAnalysis,
      (calculateTransition fromT toT).transitionType ≠ TransitionType.energy_drop := by
  constructor
  · constructor
    · norm_num [calculateTransition, calculateKeyDistance, indexOf?, circleOfFifths, mkTrack,
        tFeat, abs_of_pos, abs_of_nonneg, abs_of_neg]
    · norm_num [mkTrack, tFeat]
  · intro fromT toT
    simp only [calculateTransition]
    split_ifs with h1 h2 h3 h4 <;> simp_all
    linarith

theorem pickWeighted_mem : ∀ (cands : List (TrackAnalysis × ℚ)) (i : ℕ) (cum : ℚ) (r : ℚ) (t : TrackAnalysis),
    pickWeighted cands i cum r = some t → ∃ c ∈ cands, c.1 = t := by
  intro cands
  induction cands with
  | nil => intro i c r t h; simp [pickWeighted] at h
  | cons c cs ih =>
    intro i cum r t h
    simp only [pickWeighted] at h
    split at h
    · exact ⟨c, List.mem_cons_self c cs, by injection h⟩
    · obtain ⟨c2, hc2, he⟩ := ih _ _ _ _ h
      exact ⟨c2, List.mem_cons_of_mem c hc2, he⟩

theorem getNextTrack_none_iff (mood : Mood) (current : TrackAnalysis)
    (remaining : List TrackAnalysis) (r : ℚ) :
    getNextTrack mood current remaining r = none ↔ remaining = [] := by
  constructor
  · intro h
    by_contra hne
    have hlen : remaining.length ≠ 0 := fun h0 => hne (List.length_eq_zero.mp h0)
    simp only [getNextTrack, if_neg hlen] at h
    set scored := remaining.map (fun track => (track, calculateTransitionScore mood current track)) with hsc
    have hslen : (List.insertionSort scoreOrder scored).length = scored.length :=
      (List.perm_insertionSort scoreOrder scored).length_eq
    have hscored : scored.length = remaining.length := by simp [hsc]
    have htop : ((List.insertionSort scoreOrder scored).take
        (min 3 (List.insertionSort scoreOrder scored).length)).length ≠ 0 := by
      simp only [List.length_take, hslen, hscored]
      omega
    rcases htc : (List.insertionSort scoreOrder scored).take
        (min 3 (List.insertionSort scoreOrder scored).length) with _ | ⟨c, cs⟩
    · rw [htc] at htop; simp at htop
    · rw [htc] at h
      rcases hp : pickWeighted (c :: cs) 0 0 r with _ | t
      · rw [hp] at h; simp at h
      · rw [hp] at h; simp at h
  · intro h
    subst h
    simp [getNextTrack]

theorem getNextTrack_mem (mood : Mood) (current : TrackAnalysis)
    (remaining : List TrackAnalysis) (r : ℚ) (t : TrackAnalysis)
    (h : getNextTrack mood current remaining r = some t) : t ∈ remaining := by
  by_cases hlen : remaining.length = 0
  · simp [getNextTrack, hlen] at h
  · simp only [getNextTrack, if_neg hlen] at h
    set scored := remaining.map (fun track => (track, calculateTransitionScore mood current track)) with hsc
    set sorted := List.insertionSort scoreOrder scored with hso
    set top := sorted.take (min 3 sorted.length) with htp
    have hsub : ∀ c, c ∈ top → c ∈ scored := fun c hc =>
      (List.perm_insertionSort scoreOrder scored).mem_iff.mp (List.take_subset _ _ hc)
    have hmem : ∀ c, c ∈ scored → c.1 ∈ remaining := by
      intro c hc
      rw [hsc] at hc
      obtain ⟨track, htr, he⟩ := List.mem_map.mp hc
      rw [← he]
      exact htr
    rcases hp : pickWeighted top 0 0 r with _ | t2
    · rw [hp] at h
      rcases htc : top with _ | ⟨c, cs⟩
      · rw [htc] at h; simp at h
      · rw [htc] at h
        simp only [List.head?, Option.map_some] at h
        have : c.1 = t := by injection h
        rw [← this]
        exact hmem c (hsub c (htc ▸ List.mem_cons_self c cs))
    · rw [hp] at h
      have : t2 = t := by injection h
      subst this
      obtain ⟨c, hc, he⟩ := pickWeighted_mem top 0 0 r t2 hp
      rw [← he]
      exact hmem c (hsub c hc)

theorem optimizeLoop_perm (mood : Mood) (rand : ℕ → ℚ) :
    ∀ (fuel k : ℕ) (current : TrackAnalysis) (remaining : List TrackAnalysis),
      (optimizeLoop mood rand fuel k current remaining).Perm remaining := by
  intro fuel
  induction fuel with
  | zero => intro k current remaining; simp [optimizeLoop]
  | succ fuel ih =>
    intro k current remaining
    simp only [optimizeLoop]
    split
    · next hlen => rw [List.length_eq_zero.mp hlen]
    · next hlen =>
      rcases hg : getNextTrack mood current remaining (rand k) with _ | next
      · simp only [hg]
        exact List.Perm.refl _
      · simp only [hg]
        have hmem := getNextTrack_mem _ _ _ _ _ hg
        exact (List.Perm.cons next (ih (k + 1) next (remaining.erase next))).trans
          (List.perm_cons_erase hmem).symm

theorem foldl_best_mem : ∀ (ts : List TrackAnalysis) (t : TrackAnalysis),
    ts.foldl (fun best track =>
      if track.mixingCompatibility > best.mixingCompatibility then track else best) t ∈ t :: ts := by
  intro ts
  induction ts with
  | nil => intro t; simp
  | cons x xs ih =>
    intro t
    simp only [List.foldl_cons]
    rcases List.mem_cons.mp
        (ih (if x.mixingCompatibility > t.mixingCompatibility then x else t)) with h | h
    · rw [h]
      split
      · exact List.mem_cons_of_mem _ (List.mem_cons_self _ _)
      · exact List.mem_cons_self _ _
    · exact List.mem_cons_of_mem _ (List.mem_cons_of_mem _ h)

/-- C2: optimizeTrackOrder returns a permutation of its input, and
returns inputs of length at most one unchanged. -/
theorem C2_optimizeTrackOrder_perm (mood : Mood) (rand : ℕ → ℚ) (tracks : List TrackAnalysis) :
    (optimizeTrackOrder mood rand tracks).Perm tracks ∧
    (tracks.length ≤ 1 → optimizeTrackOrder mood rand tracks = tracks) := by
  by_cases hlen : tracks.length ≤ 1
  · simp [optimizeTrackOrder, hlen]
  · constructor
    · rcases tracks with _ | ⟨t, ts⟩
      · simp [optimizeTrackOrder]
      · simp only [optimizeTrackOrder, if_neg hlen]
        have hs := foldl_best_mem ts t
        exact (List.Perm.cons _ (optimizeLoop_perm mood rand _ _ _ _)).trans
          (List.perm_cons_erase hs).symm
    · intro h; exact absurd h hlen

/-- C2 witness: a singleton input is returned unchanged (and hence is a
permutation of itself). -/
theorem C2_optimizeTrackOrder_perm_witness :
    ((optimizeTrackOrder Mood.chill (fun _ => 0.5) [mkTrack "a" 120 0 0.5]).Perm
        [mkTrack "a" 120 0 0.5]) ∧
    ([mkTrack "a" 120 0 0.5].length ≤ 1 ∧
      optimizeTrackOrder Mood.chill (fun _ => 0.5) [mkTrack "a" 120 0 0.5] =
        [mkTrack "a" 120 0 0.5]) :=
  ⟨(C2_optimizeTrackOrder_perm Mood.chill (fun _ => 0.5) [mkTrack "a" 120 0 0.5]).1,
   by norm_num,
   (C2_optimizeTrackOrder_perm Mood.chill (fun _ => 0.5) [mkTrack "a" 120 0 0.5]).2 (by norm_num)⟩

/-- C10: getNextTrack returns none exactly on an empty remaining list,
and any returned track is an element of the remaining list, for every
value of the random draw. -/
theorem C10_getNextTrack_total (mood : Mood) (current : TrackAnalysis)
    (remaining : List TrackAnalysis) (r : ℚ) :
    (getNextTrack mood current remaining r = none ↔ remaining = []) ∧
    ∀ t : TrackAnalysis, getNextTrack mood current remaining r = some t → t ∈ remaining :=
  ⟨getNextTrack_none_iff mood current remaining r,
   fun t h => getNextTrack_mem mood current remaining r t h⟩

/-- C10 witness: the empty list gives none; a concrete singleton list
gives its only element back. -/
theorem C10_getNextTrack_total_witness :
    getNextTrack Mood.chill (mkTrack "a" 120 0 0.5) [] 0.25 = none ∧
    (getNextTrack Mood.chill (mkTrack "a" 120 0 0.5) [mkTrack "b" 121 7 0.5] 0.25 =
        some (mkTrack "b" 121 7 0.5) ∧
      mkTrack "b" 121 7 0.5 ∈ [mkTrack "b" 121 7 0.5]) := by
  have he : getNextTrack Mood.chill (mkTrack "a" 120 0 0.5) [mkTrack "b" 121 7 0.5] 0.25 =
      some (mkTrack "b" 121 7 0.5) := by
    norm_num [getNextTrack, calculateTransitionScore, calculateKeyDistance, indexOf?,
      circleOfFifths, List.insertionSort, List.orderedInsert, pickWeighted, transitionWeights,
      mkTrack, tFeat, MoodScore.get, scoreOrder, abs_of_pos, abs_of_nonneg, abs_of_neg]
  exact ⟨(C10_getNextTrack_total Mood.chill (mkTrack "a" 120 0 0.5) [] 0.25).1.mpr rfl,
    he,
    (C10_getNextTrack_total Mood.chill (mkTrack "a" 120 0 0.5)
      [mkTrack "b" 121 7 0.5] 0.25).2 _ he⟩

theorem selectCandidate_mem {mood : Mood} {e : ℚ} {avail : List TrackAnalysis}
    {c : TrackAnalysis} (h : selectCandidate mood e avail = some c) : c ∈ avail := by
  unfold selectCandidate at h
  split at h
  · next c2 hf => injection h with h2; exact h2 ▸ List.mem_of_find?_eq_some hf
  · rcases avail with _ | ⟨a, as⟩
    · simp at h
    · simp only [List.head?] at h
      injection h with h2
      exact h2 ▸ List.mem_cons_self a as

theorem selectCandidate_isSome {mood : Mood} {e : ℚ} {avail : List TrackAnalysis}
    (h : avail ≠ []) : (selectCandidate mood e avail).isSome := by
  unfold selectCandidate
  split
  · simp
  · rcases avail with _ | ⟨a, as⟩
    · exact absurd rfl h
    · simp

theorem createLoop_length_le (mood : Mood) (energyTargets : ℕ → ℚ) :
    ∀ (n i : ℕ) (avail : List TrackAnalysis),
      (createLoop mood energyTargets n i avail).length ≤ n := by
  intro n
  induction n with
  | zero => intro i avail; simp [createLoop]
  | succ n ih =>
    intro i avail
    simp only [createLoop]
    rcases hc : selectCandidate mood (energyTargets i) avail with _ | c
    · exact le_trans (ih (i + 1) avail) (Nat.le_succ n)
    · simpa using ih (i + 1) (avail.erase c)

theorem createLoop_length_eq (mood : Mood) (energyTargets : ℕ → ℚ) :
    ∀ (n i : ℕ) (avail : List TrackAnalysis), n ≤ avail.length →
      (createLoop mood energyTargets n i avail).length = n := by
  intro n
  induction n with
  | zero => intro i avail _; simp [createLoop]
  | succ n ih =>
    intro i avail hlen
    have hne : avail ≠ [] := by
      intro he; rw [he] at hlen; simp at hlen
    rcases hc : selectCandidate mood (energyTargets i) avail with _ | c
    · have := @selectCandidate_isSome mood (energyTargets i) avail hne
      rw [hc] at this; exact absurd this (by simp)
    · have hmem := selectCandidate_mem hc
      simp only [createLoop, hc, List.length_cons]
      rw [ih (i + 1) (avail.erase c)]
      rw [List.length_erase_of_mem hmem]
      omega

theorem createLoop_subperm (mood : Mood) (energyTargets : ℕ → ℚ) :
    ∀ (n i : ℕ) (avail : List TrackAnalysis),
      List.Subperm (createLoop mood energyTargets n i avail) avail := by
  intro n
  induction n with
  | zero => intro i avail; simp [createLoop]
  | succ n ih =>
    intro i avail
    simp only [createLoop]
    rcases hc : selectCandidate mood (energyTargets i) avail with _ | c
    · exact ih (i + 1) avail
    · have hmem := selectCandidate_mem hc
      exact ((List.subperm_cons c).mpr (ih (i + 1) (avail.erase c))).trans
        (List.perm_cons_erase hmem).symm.subperm

/-- C3 amended: createMoodPlaylist always returns exactly
min(maxTracks, pool size) tracks (hence at most maxTracks, and never
short for a non-empty pool), drawn from the pool without reusing any
pool entry (a sub-permutation); consequently, whenever the pool entries
carry pairwise distinct ids, the playlist has no duplicate ids. -/
theorem C3_createMoodPlaylist_amended (tracks : List TrackAnalysis) (mood : Mood)
    (maxTracks : ℕ) (energyTargets : ℕ → ℚ) :
    (createMoodPlaylist tracks mood maxTracks energyTargets).length ≤ maxTracks ∧
    (createMoodPlaylist tracks mood maxTracks energyTargets).length =
      min maxTracks tracks.length ∧
    List.Subperm (createMoodPlaylist tracks mood maxTracks energyTargets) tracks ∧
    ((tracks.map TrackAnalysis.id).Nodup →
      ((createMoodPlaylist tracks mood maxTracks energyTargets).map TrackAnalysis.id).Nodup) := by
  have hsortlen : (List.insertionSort (moodGE mood) tracks).length = tracks.length :=
    (List.perm_insertionSort (moodGE mood) tracks).length_eq
  have hlen : (createMoodPlaylist tracks mood maxTracks energyTargets).length =
      min maxTracks tracks.length := by
    unfold createMoodPlaylist
    rw [createLoop_length_eq mood energyTargets _ 0 _
      (by rw [hsortlen]; exact min_le_right _ _)]
    rw [hsortlen]
  have hsub : List.Subperm (createMoodPlaylist tracks mood maxTracks energyTargets) tracks := by
    unfold createMoodPlaylist
    exact (createLoop_subperm mood energyTargets _ 0 _).trans
      (List.perm_insertionSort (moodGE mood) tracks).subperm
  refine ⟨?_, hlen, hsub, ?_⟩
  · rw [hlen]; exact min_le_left _ _
  · intro hnd
    obtain ⟨w, hwp, hws⟩ := hsub
    have h1 : (w.map TrackAnalysis.id).Nodup := (hws.map TrackAnalysis.id).nodup hnd
    exact ((hwp.map TrackAnalysis.id).nodup_iff).mp h1

/-- C3 counterexample: with a pool holding two entries that share the id
"a", the playlist selects both (the object-reference visited set of the
source cannot identify them), so the result has duplicate track ids. -/
theorem C3_counterexample :
    ¬(((createMoodPlaylist [mkTrack "a" 120 0 0.5, mkTrack "a" 120 0 0.5] Mood.chill 2
        (fun _ => 0.5)).map TrackAnalysis.id).Nodup) := by
  have he : createMoodPlaylist [mkTrack "a" 120 0 0.5, mkTrack "a" 120 0 0.5] Mood.chill 2
      (fun _ => 0.5) = [mkTrack "a" 120 0 0.5, mkTrack "a" 120 0 0.5] := by
    norm_num [createMoodPlaylist, createLoop, selectCandidate, List.insertionSort,
      List.orderedInsert, moodGE, MoodScore.get, mkTrack, tFeat, List.find?,
      abs_of_nonneg, abs_of_pos, abs_of_neg]
  rw [he]
  simp [mkTrack]

/-- C3 witness: on a concrete two-track pool with distinct ids the
playlist ids are distinct. -/
theorem C3_createMoodPlaylist_amended_witness :
    (([mkTrack "a" 120 0 0.5, mkTrack "b" 121 7 0.6].map TrackAnalysis.id).Nodup) ∧
    (((createMoodPlaylist [mkTrack "a" 120 0 0.5, mkTrack "b" 121 7 0.6] Mood.chill 2
        (fun _ => 0.5)).map TrackAnalysis.id).Nodup) := by
  have hnd : ([mkTrack "a" 120 0 0.5, mkTrack "b" 121 7 0.6].map TrackAnalysis.id).Nodup := by
    simp [mkTrack]
  exact ⟨hnd, (C3_createMoodPlaylist_amended
    [mkTrack "a" 120 0 0.5, mkTrack "b" 121 7 0.6] Mood.chill 2 (fun _ => 0.5)).2.2.2 hnd⟩

theorem clamp_mem {lo hi : ℚ} (x : ℚ) (h : lo ≤ hi) :
    lo ≤ clamp lo hi x ∧ clamp lo hi x ≤ hi :=
  ⟨le_max_left _ _, max_le h (min_le_left _ _)⟩

theorem sum_map_cast_le (l : List ℕ) (h : ∀ b ∈ l, b ≤ 255) :
    (l.map (fun b : ℕ => (b : ℚ))).sum ≤ 255 * l.length := by
  induction l with
  | nil => simp
  | cons x xs ih =>
    simp only [List.map_cons, List.sum_cons, List.length_cons]
    have hx : (x : ℚ) ≤ 255 := by exact_mod_cast h x (List.mem_cons_self x xs)
    have hxs := ih (fun b hb => h b (List.mem_cons_of_mem _ hb))
    rw [Nat.cast_add, Nat.cast_one]
    linarith

theorem getFrequencyRange_bounds (frequencyData : List ℕ) (startIndex endIndex : ℕ)
    (hse : startIndex < endIndex) (h : ∀ b ∈ frequencyData, b ≤ 255) :
    0 ≤ getFrequencyRange frequencyData startIndex endIndex ∧
      getFrequencyRange frequencyData startIndex endIndex ≤ 1 := by
  have hmem : ∀ b ∈ (frequencyData.take endIndex).drop startIndex, b ≤ 255 := fun b hb =>
    h b (List.take_subset _ _ (List.drop_subset _ _ hb))
  have hsum0 : 0 ≤ (((frequencyData.take endIndex).drop startIndex).map (fun b : ℕ => (b : ℚ))).sum := by
    apply List.sum_nonneg
    intro x hx
    obtain ⟨b, _, rfl⟩ := List.mem_map.mp hx
    exact Nat.cast_nonneg b
  have hsumle := sum_map_cast_le _ hmem
  have h1 : ((frequencyData.take endIndex).drop startIndex).length ≤ endIndex - startIndex := by
    simp only [List.length_drop, List.length_take]
    omega
  have hlen : ((((frequencyData.take endIndex).drop startIndex).length : ℕ) : ℚ) ≤
      (endIndex : ℚ) - (startIndex : ℚ) := by
    calc ((((frequencyData.take endIndex).drop startIndex).length : ℕ) : ℚ) ≤
        ((endIndex - startIndex : ℕ) : ℚ) := by exact_mod_cast h1
      _ = (endIndex : ℚ) - (startIndex : ℚ) := by
          rw [Nat.cast_sub hse.le]
  have hcount : (0 : ℚ) < (endIndex : ℚ) - (startIndex : ℚ) := by
    rw [sub_pos]
    exact_mod_cast hse
  unfold getFrequencyRange
  constructor
  · have := div_nonneg (div_nonneg hsum0 hcount.le) (by norm_num : (0:ℚ) ≤ 255)
    simpa using this
  · have hstep : (((frequencyData.take endIndex).drop startIndex).map (fun b : ℕ => (b : ℚ))).sum /
        ((endIndex : ℚ) - (startIndex : ℚ)) ≤ 255 := by
      rw [div_le_iff₀ hcount]
      calc (((frequencyData.take endIndex).drop startIndex).map (fun b : ℕ => (b : ℚ))).sum ≤
          255 * (((frequencyData.take endIndex).drop startIndex).length : ℚ) := hsumle
        _ ≤ 255 * ((endIndex : ℚ) - (startIndex : ℚ)) := by linarith
    have := (div_le_one (by norm_num : (0:ℚ) < 255)).mpr hstep
    simpa using this

/-- C5: for every mood preset and every band magnitudes whatsoever, the
sampling-loop path clamps each parameter into its documented range
(filter frequency [1000, 8000], gain [0.3, 1.0], compression [2, 20])
and applies exactly clamp(base + delta, bounds); and the second analysis
path stays inside the same filter and gain ranges for every byte
frequency-data array. -/
theorem C5_effects_bounds :
    (∀ (mood : Mood) (bass mid treble : ℚ),
      (1000 ≤ (applyDynamicAdjustments (moodBaseSettings mood)
          (calculateDynamicAdjustments bass mid treble)).filterFrequency ∧
        (applyDynamicAdjustments (moodBaseSettings mood)
          (calculateDynamicAdjustments bass mid treble)).filterFrequency ≤ 8000) ∧
      (0.3 ≤ (applyDynamicAdjustments (moodBaseSettings mood)
          (calculateDynamicAdjustments bass mid treble)).gain ∧
        (applyDynamicAdjustments (moodBaseSettings mood)
          (calculateDynamicAdjustments bass mid treble)).gain ≤ 1.0) ∧
      (2 ≤ (applyDynamicAdjustments (moodBaseSettings mood)
          (calculateDynamicAdjustments bass mid treble)).compression ∧
        (applyDynamicAdjustments (moodBaseSettings mood)
          (calculateDynamicAdjustments bass mid treble)).compression ≤ 20) ∧
      (applyDynamicAdjustments (moodBaseSettings mood)
          (calculateDynamicAdjustments bass mid treble)).filterFrequency =
        clamp 1000 8000 ((moodBaseSettings mood).filterFrequency +
          (calculateDynamicAdjustments bass mid treble).filterAdjust) ∧
      (applyDynamicAdjustments (moodBaseSettings mood)
          (calculateDynamicAdjustments bass mid treble)).gain =
        clamp 0.3 1.0 ((moodBaseSettings mood).gain +
          (calculateDynamicAdjustments bass mid treble).gainAdjust) ∧
      (applyDynamicAdjustments (moodBaseSettings mood)
          (calculateDynamicAdjustments bass mid treble)).compression =
        clamp 2 20 ((moodBaseSettings mood).compression +
          (calculateDynamicAdjustments bass mid treble).compressionAdjust)) ∧
    (∀ (mood : Mood) (frequencyData : List ℕ), (∀ b ∈ frequencyData, b ≤ 255) →
      1000 ≤ (updateRealtimeEffects (moodBaseSettings mood) frequencyData).1 ∧
      (updateRealtimeEffects (moodBaseSettings mood) frequencyData).1 ≤ 8000 ∧
      0.3 ≤ (updateRealtimeEffects (moodBaseSettings mood) frequencyData).2 ∧
      (updateRealtimeEffects (moodBaseSettings mood) frequencyData).2 ≤ 1.0) := by
  constructor
  · intro mood bass mid treble
    simp only [applyDynamicAdjustments]
    exact ⟨clamp_mem _ (by norm_num), clamp_mem _ (by norm_num), clamp_mem _ (by norm_num),
      trivial, trivial, trivial⟩
  · intro mood frequencyData h
    obtain ⟨hb0, hb1⟩ := getFrequencyRange_bounds frequencyData 0 85 (by norm_num) h
    obtain ⟨hm0, hm1⟩ := getFrequencyRange_bounds frequencyData 85 170 (by norm_num) h
    obtain ⟨ht0, ht1⟩ := getFrequencyRange_bounds frequencyData 170 255 (by norm_num) h
    cases mood <;>
      simp only [updateRealtimeEffects, applyDynamicEffects, moodBaseSettings] <;>
      exact ⟨by linarith, by linarith, le_min (by norm_num) (by linarith), min_le_left _ _⟩

/-- C5 witness: the bounds at the chill preset, with concrete band
magnitudes on the first path and a concrete all-255 byte array on the
second. -/
theorem C5_effects_bounds_witness :
    (1000 ≤ (applyDynamicAdjustments (moodBaseSettings Mood.chill)
        (calculateDynamicAdjustments 200 100 50)).filterFrequency ∧
      (applyDynamicAdjustments (moodBaseSettings Mood.chill)
        (calculateDynamicAdjustments 200 100 50)).filterFrequency ≤ 8000) ∧
    ((∀ b ∈ List.replicate 300 255, b ≤ 255) ∧
      1000 ≤ (updateRealtimeEffects (moodBaseSettings Mood.chill) (List.replicate 300 255)).1 ∧
      (updateRealtimeEffects (moodBaseSettings Mood.chill) (List.replicate 300 255)).1 ≤ 8000 ∧
      0.3 ≤ (updateRealtimeEffects (moodBaseSettings Mood.chill) (List.replicate 300 255)).2 ∧
      (updateRealtimeEffects (moodBaseSettings Mood.chill) (List.replicate 300 255)).2 ≤ 1.0) := by
  have hbytes : ∀ b ∈ List.replicate 300 255, b ≤ 255 := by
    intro b hb
    rw [List.eq_of_mem_replicate hb]
  exact ⟨(C5_effects_bounds.1 Mood.chill 200 100 50).1,
    hbytes, C5_effects_bounds.2 Mood.chill (List.replicate 300 255) hbytes⟩
